import Mathlib

/-!
Verification of the JSON-stat cube decoder of OpenKIWAS
(`jsonstat_to_dataframe` together with its inner helper `get_value_at`,
`src/Scipts/Eurostat_Search_Water_Statistics.py`, lines 58-135).

The decoder is embedded as a pure function from a `Cube` (the fields of the
JSON-stat dataset that the Python function reads) to `Except DecodeErr
(List Obs)`: a Python exception escaping the function is modelled as
`Except.error`, and the rows of the returned DataFrame as `List Obs`.
-/

/-- Error kinds of the decoder.  The Python function has no error type of its
own; each constructor below names the concrete Python exception site in
`jsonstat_to_dataframe` that it embeds. -/
inductive DecodeErr where
  /-- Python raises `KeyError` at `dim[dim_name]["category"]` (line 76) when a
  dimension id has no entry in the `dimension` mapping. -/
  | keyErrorDimension : DecodeErr
  /-- Python raises `KeyError` at `pos_to_code[i]` (line 86) when the supplied
  positions have a gap in `0..max_pos`. -/
  | keyErrorCategoryGap : DecodeErr
  /-- Python would raise `IndexError` at `strides[dim_idx]` (line 117);
  unreachable, since `strides` always has one entry per size. -/
  | indexErrorStrides : DecodeErr
  /-- Python raises `IndexError` at `dim_ids[dim_idx]` (line 121) when `size`
  is longer than `id`. -/
  | indexErrorDimIds : DecodeErr
  /-- Python raises `KeyError` at `dim_categories[dim_name]` (line 122). -/
  | keyErrorCategories : DecodeErr
  /-- Python raises `IndexError` at `code_list[coord_index]` (line 123): a
  stride-arithmetic coordinate fell outside the resolved category list. -/
  | malformedCoordinate : DecodeErr
  /-- Python raises `IndexError` at `value[idx]` (line 107): the dense value
  store is shorter than the flat-position count. -/
  | indexErrorValue : DecodeErr
deriving DecidableEq

/-- The `js["value"]` field as `get_value_at` (lines 105-111) distinguishes it:
a dense list (entries may be JSON `null`, i.e. `none`), a sparse mapping from
decimal flat-position strings to values (stored values may also be `null`), or
anything else (the final `else: return None` branch). -/
inductive Store where
  | dense : List (Option Int) → Store
  | sparse : List (String × Option Int) → Store
  | other : Store
deriving DecidableEq

/-- The parts of the JSON-stat dataset `js` that `jsonstat_to_dataframe`
reads: `js["id"]`, `js["size"]`, for each dimension name the mapping
`js["dimension"][name]["category"].get("index", {})` from category code to
position (a missing or empty `index` is the empty list; a name missing from
`dimension` altogether models the `KeyError` case), and `js["value"]`. -/
structure Cube where
  ids : List String
  sizes : List Nat
  dimension : List (String × List (String × Nat))
  value : Store
deriving DecidableEq

/-- Python dict lookup (`d[k]` / `d.get(k)`).  Every dict the script handles
has unique keys (dicts cannot hold duplicates), so the first match suffices. -/
def dictFind {κ ν : Type} [BEq κ] (d : List (κ × ν)) (k : κ) : Option ν :=
  (d.find? (fun kv => kv.1 == k)).map (fun kv => kv.2)

/-- Python dict assignment `d[k] = v`: replace in place when the key exists,
else append; insertion order is preserved, as in CPython dicts. -/
def dictInsert {κ ν : Type} [BEq κ] (d : List (κ × ν)) (k : κ) (v : ν) :
    List (κ × ν) :=
  if d.any (fun kv => kv.1 == k) then
    d.map (fun kv => if kv.1 == k then (k, v) else kv)
  else d ++ [(k, v)]

/-- Line 80: `pos_to_code = {pos: code for code, pos in index.items()}`.
As in a Python dict comprehension, a later item with the same position
overwrites an earlier one. -/
def buildPosToCode (index : List (String × Nat)) : List (Nat × String) :=
  index.foldl (fun acc cp => dictInsert acc cp.2 cp.1) []

/-- Line 85: `max_pos = max(pos_to_code.keys())`; only reached when the dict
is nonempty. -/
def maxKey (d : List (Nat × String)) : Nat :=
  d.foldl (fun m kv => max m kv.1) 0

/-- Lines 76-87: resolve one dimension's ordered category code list.  An empty
mapping yields the placeholder `["_missing_"]` (lines 81-84); a gap in
`0..max_pos` raises `KeyError` at line 86. -/
def resolveCategories (index : List (String × Nat)) :
    Except DecodeErr (List String) :=
  let pos_to_code := buildPosToCode index
  if pos_to_code.isEmpty then .ok ["_missing_"]
  else
    (List.range (maxKey pos_to_code + 1)).mapM (fun i =>
      match dictFind pos_to_code i with
      | none => .error .keyErrorCategoryGap
      | some code => .ok code)

/-- Lines 74-87: build `dim_categories`, iterating over `dim_ids` in order. -/
def resolveAll (ids : List String)
    (dimension : List (String × List (String × Nat))) :
    Except DecodeErr (List (String × List String)) :=
  ids.foldlM (fun acc dim_name =>
    match dictFind dimension dim_name with
    | none => .error .keyErrorDimension
    | some index =>
      (resolveCategories index).map (fun codes => dictInsert acc dim_name codes))
    []

/-- Lines 90-93: `n_obs = 1` then `for s in dim_sizes: n_obs *= s`. -/
def n_obs (sizes : List Nat) : Nat :=
  sizes.foldl (fun acc s => acc * s) 1

/-- Lines 97-102: `strides = []; acc = 1` then, for each size of
`reversed(dim_sizes)`, `strides.insert(0, acc); acc *= size`.  The pair is the
loop state `(strides, acc)`. -/
def stridesAcc (sizes : List Nat) : List Nat × Nat :=
  sizes.reverse.foldl (fun p size => (p.2 :: p.1, p.2 * size)) ([], 1)

/-- The `strides` list left by the loop of lines 97-102. -/
def stridesLoop (sizes : List Nat) : List Nat :=
  (stridesAcc sizes).1

/-- Lines 105-111: `get_value_at`.  Dense list indexing out of range raises
`IndexError`; a sparse dict uses `.get(str(idx), None)`, so an absent key and
a stored `null` are both `none`; any other store type yields `None`. -/
def get_value_at (value : Store) (idx : Nat) : Except DecodeErr (Option Int) :=
  match value with
  | .dense vals =>
    match vals[idx]? with
    | none => .error .indexErrorValue
    | some v => .ok v
  | .sparse entries => .ok ((dictFind entries (Nat.repr idx)).join)
  | .other => .ok none

/-- Lines 116-124: the inner `for dim_idx, size in enumerate(dim_sizes)` loop.
The body never uses `size` itself, so the recursion runs over the list of
dimension indices; `remaining` and `coord_codes` are the loop state.  (Python
`remaining // stride` with `stride = 0` would raise `ZeroDivisionError`, but a
zero stride forces `n_obs = 0`, so the loop is never entered then.) -/
def coordLoop (ids : List String) (cats : List (String × List String))
    (strides : List Nat) :
    List Nat → Nat → List (String × String) →
    Except DecodeErr (Nat × List (String × String))
  | [], remaining, coord_codes => .ok (remaining, coord_codes)
  | dim_idx :: rest, remaining, coord_codes =>
    match strides[dim_idx]? with
    | none => .error .indexErrorStrides
    | some stride =>
      let coord_index := remaining / stride
      let remaining2 := remaining % stride
      match ids[dim_idx]? with
      | none => .error .indexErrorDimIds
      | some dim_name =>
        match dictFind cats dim_name with
        | none => .error .keyErrorCategories
        | some code_list =>
          match code_list[coord_index]? with
          | none => .error .malformedCoordinate
          | some code =>
            coordLoop ids cats strides rest remaining2
              (dictInsert coord_codes dim_name code)

/-- One DataFrame row: the dict `coord_codes` plus `row["value"] = v`
(lines 131-133).  The value is kept in a separate field, which matches the
Python row dict for every cube whose dimensions are not literally named
`"value"`. -/
structure Obs where
  coords : List (String × String)
  value : Int
deriving DecidableEq

/-- Lines 113-133, the body of `for flat_idx in range(n_obs)` for one flat
position: decode the coordinates, look the value up, and skip `None`. -/
def rowAt (ids : List String) (sizes : List Nat)
    (cats : List (String × List String)) (value : Store) (flat_idx : Nat) :
    Except DecodeErr (Option Obs) := do
  let rc ← coordLoop ids cats (stridesLoop sizes) (List.range sizes.length)
    flat_idx []
  let v ← get_value_at value flat_idx
  match v with
  | none => .ok none
  | some x => .ok (some ⟨rc.2, x⟩)

/-- The accumulation of `rows` over the flat positions (lines 95 and 113-133);
an uncaught exception aborts the whole call, which `Except` short-circuiting
reproduces. -/
def obsFold (f : Nat → Except DecodeErr (Option Obs)) (l : List Nat)
    (acc : Except DecodeErr (List Obs)) : Except DecodeErr (List Obs) :=
  l.foldl (fun a p => do
      let rows ← a
      let r ← f p
      match r with
      | none => pure rows
      | some obs => pure (rows ++ [obs])) acc

/-- Lines 58-135: `jsonstat_to_dataframe`, returning the ordered row list the
DataFrame is built from (line 135). -/
def jsonstat_to_dataframe (cube : Cube) : Except DecodeErr (List Obs) := do
  let cats ← resolveAll cube.ids cube.dimension
  obsFold (rowAt cube.ids cube.sizes cats cube.value)
    (List.range (n_obs cube.sizes)) (.ok [])

/-- Follows the spec's words: the row-major stride of dimension `j` is the
product of all sizes after it, and the coordinate of flat position `p` along
dimension `j` is `(p / stride_j) % size_j`. -/
def coordOf (sizes : List Nat) (j p : Nat) : Nat :=
  (p / (sizes.drop (j + 1)).prod) % sizes.getD j 1

/-- Follows the spec's words: the pair emitted for dimension `j` of flat
position `p` — the dimension id together with the category code found at its
`coordOf` coordinate. -/
def rowMajorEntry (ids : List String) (sizes : List Nat)
    (cats : List (String × List String)) (p j : Nat) : String × String :=
  (ids.getD j "",
    ((dictFind cats (ids.getD j "")).getD []).getD (coordOf sizes j p) "")

/-- Follows the spec's words: the closed-form row-major coordinate row of one
flat position, pairing each dimension id in order with the category code found
at its `coordOf` coordinate. -/
def rowMajorCoords (ids : List String) (sizes : List Nat)
    (cats : List (String × List String)) (p : Nat) : List (String × String) :=
  (List.range sizes.length).map (rowMajorEntry ids sizes cats p)

/-- Whether flat position `p` holds a present (non-null) value. -/
def isPresent (value : Store) (p : Nat) : Bool :=
  match get_value_at value p with
  | .ok (some _) => true
  | _ => false

/-- Number of flat positions below `n` holding a present value. -/
def presentCount (value : Store) (n : Nat) : Nat :=
  (List.range n).countP (isPresent value)

/-- The hand-built 2 by 3 cube of the spec's round-trip test. -/
def geoTimeDims : List (String × List (String × Nat)) :=
  [("geo", [("A", 0), ("B", 1)]),
   ("time", [("2020", 0), ("2021", 1), ("2022", 2)])]

/-- The 2 by 3 test cube with a pluggable value store. -/
def geoTimeCube (store : Store) : Cube :=
  ⟨["geo", "time"], [2, 3], geoTimeDims, store⟩

deriving instance DecidableEq for Except

/-! ### Dictionary lemmas -/

theorem dictFind_nil {κ ν : Type} [BEq κ] (k : κ) :
    dictFind ([] : List (κ × ν)) k = none := rfl

theorem dictFind_cons {κ ν : Type} [BEq κ] (kv : κ × ν) (d : List (κ × ν))
    (k : κ) :
    dictFind (kv :: d) k = if kv.1 == k then some kv.2 else dictFind d k := by
  simp only [dictFind, List.find?]
  by_cases h : kv.1 == k <;> simp [h]

theorem dictInsert_cons {κ ν : Type} [BEq κ] (kv : κ × ν) (d : List (κ × ν))
    (k : κ) (v : ν) :
    dictInsert (kv :: d) k v =
      if kv.1 == k then (k, v) :: d.map (fun p => if p.1 == k then (k, v) else p)
      else kv :: dictInsert d k v := by
  by_cases h : kv.1 == k
  · simp [dictInsert, h]
  · by_cases h2 : d.any (fun p => p.1 == k) <;>
      simp [dictInsert, h, h2, List.any_cons]

theorem dictFind_map_replace {κ ν : Type} [BEq κ] [LawfulBEq κ]
    (d : List (κ × ν)) (k k' : κ) (v : ν) (hne : ¬(k == k')) :
    dictFind (d.map (fun p => if p.1 == k then (k, v) else p)) k' =
      dictFind d k' := by
  induction d with
  | nil => rfl
  | cons kv t ih =>
    by_cases h : kv.1 == k
    · have hk : kv.1 = k := by exact eq_of_beq h
      simp only [List.map_cons, h, if_pos, dictFind_cons]
      rw [if_neg (by simpa using hne), if_neg (by rw [hk]; simpa using hne)]
      exact ih
    · simp only [List.map_cons, h, if_neg, Bool.false_eq_true, not_false_iff,
        dictFind_cons]
      by_cases h2 : kv.1 == k' <;> simp [h2, ih]

theorem dictFind_dictInsert_self {κ ν : Type} [BEq κ] [LawfulBEq κ]
    (d : List (κ × ν)) (k : κ) (v : ν) :
    dictFind (dictInsert d k v) k = some v := by
  induction d with
  | nil => simp [dictInsert, dictFind]
  | cons kv t ih =>
    rw [dictInsert_cons]
    by_cases h : kv.1 == k
    · simp [h, dictFind_cons]
    · simp only [h, Bool.false_eq_true, if_neg, not_false_iff, dictFind_cons]
      simp [h, ih]

theorem dictFind_dictInsert_other {κ ν : Type} [BEq κ] [LawfulBEq κ]
    (d : List (κ × ν)) (k k' : κ) (v : ν) (hne : k' ≠ k) :
    dictFind (dictInsert d k v) k' = dictFind d k' := by
  have hbe : (k == k') = false := by
    rw [beq_eq_false_iff_ne]; exact fun h => hne h.symm
  induction d with
  | nil =>
    have h0 : dictInsert ([] : List (κ × ν)) k v = [(k, v)] := by
      simp [dictInsert]
    rw [h0, dictFind_cons]
    simp [hbe, dictFind_nil]
  | cons kv t ih =>
    by_cases h : kv.1 == k
    · have hk : kv.1 = k := eq_of_beq h
      rw [dictInsert_cons, if_pos h, dictFind_cons,
        dictFind_map_replace t k k' v (by simp [hbe]), dictFind_cons, hk]
      simp [hbe]
    · rw [dictInsert_cons, if_neg (by simpa using h), dictFind_cons,
        dictFind_cons, ih]

theorem dictFind_mem {κ ν : Type} [BEq κ] [LawfulBEq κ]
    (d : List (κ × ν)) (k : κ) (v : ν) (h : dictFind d k = some v) :
    (k, v) ∈ d := by
  unfold dictFind at h
  cases hf : d.find? (fun kv => kv.1 == k) with
  | none => rw [hf] at h; simp at h
  | some kv =>
    rw [hf] at h
    have hmem := List.mem_of_find?_eq_some hf
    have hpred := List.find?_some hf
    have h1 : kv.1 = k := eq_of_beq hpred
    have h2 : kv.2 = v := by simpa using h
    have : kv = (k, v) := by
      cases kv; simp_all
    rwa [this] at hmem

theorem dictFind_isSome_dictInsert {κ ν : Type} [BEq κ] [LawfulBEq κ]
    (d : List (κ × ν)) (k k' : κ) (v : ν)
    (h : (dictFind d k).isSome) : (dictFind (dictInsert d k' v) k).isSome := by
  by_cases he : k = k'
  · subst he; rw [dictFind_dictInsert_self]; rfl
  · rwa [dictFind_dictInsert_other _ _ _ _ he]

theorem dictInsert_forall {κ ν : Type} [BEq κ]
    (d : List (κ × ν)) (k : κ) (v : ν) (Q : κ × ν → Prop)
    (hd : ∀ kv ∈ d, Q kv) (hkv : Q (k, v)) :
    ∀ kv ∈ dictInsert d k v, Q kv := by
  intro kv hm
  unfold dictInsert at hm
  split at hm
  · rcases List.mem_map.mp hm with ⟨p, hp, he⟩
    by_cases h : p.1 == k
    · rw [if_pos h] at he; rw [← he]; exact hkv
    · simp only [h, Bool.false_eq_true, if_neg, not_false_iff] at he
      rw [← he]; exact hd p hp
  · rcases List.mem_append.mp hm with h | h
    · exact hd kv h
    · rcases List.mem_singleton.mp h with rfl
      exact hkv

theorem dictInsert_append_of_notmem {κ ν : Type} [BEq κ] [LawfulBEq κ]
    (d : List (κ × ν)) (k : κ) (v : ν) (h : ∀ kv ∈ d, kv.1 ≠ k) :
    dictInsert d k v = d ++ [(k, v)] := by
  unfold dictInsert
  rw [if_neg]
  simp only [List.any_eq_true, not_exists, not_and]
  intro kv hm
  simpa using h kv hm

/-! ### Strides and flat-position count -/

theorem stridesAcc_foldr (sizes : List Nat) :
    stridesAcc sizes =
      sizes.foldr (fun size p => (p.2 :: p.1, p.2 * size)) ([], 1) := by
  unfold stridesAcc
  rw [List.foldl_reverse]

theorem stridesAcc_snd (sizes : List Nat) : (stridesAcc sizes).2 = sizes.prod := by
  rw [stridesAcc_foldr]
  induction sizes with
  | nil => rfl
  | cons s t ih =>
    simp only [List.foldr_cons, List.prod_cons]
    rw [ih, Nat.mul_comm]

theorem stridesLoop_cons (s : Nat) (t : List Nat) :
    stridesLoop (s :: t) = t.prod :: stridesLoop t := by
  unfold stridesLoop
  rw [stridesAcc_foldr, stridesAcc_foldr]
  simp only [List.foldr_cons]
  rw [← stridesAcc_foldr, stridesAcc_snd]

theorem stridesLoop_length (sizes : List Nat) :
    (stridesLoop sizes).length = sizes.length := by
  induction sizes with
  | nil => rfl
  | cons s t ih => rw [stridesLoop_cons]; simp [ih]

theorem stridesLoop_getElem? (sizes : List Nat) (j : Nat)
    (hj : j < sizes.length) :
    (stridesLoop sizes)[j]? = some ((sizes.drop (j + 1)).prod) := by
  induction sizes generalizing j with
  | nil => simp at hj
  | cons s t ih =>
    rw [stridesLoop_cons]
    cases j with
    | zero => simp
    | succ j =>
      simp only [List.getElem?_cons_succ, List.drop_succ_cons]
      exact ih j (by simpa using hj)

theorem n_obs_eq_prod (sizes : List Nat) : n_obs sizes = sizes.prod := by
  have aux : ∀ (l : List Nat) (a : Nat),
      l.foldl (fun acc s => acc * s) a = a * l.prod := by
    intro l
    induction l with
    | nil => intro a; simp
    | cons s t ih =>
      intro a
      simp only [List.foldl_cons, List.prod_cons]
      rw [ih, Nat.mul_assoc]
  unfold n_obs
  rw [aux]
  exact Nat.one_mul _

/-! ### The row fold -/

theorem obsFold_error (f : Nat → Except DecodeErr (Option Obs)) (l : List Nat)
    (e : DecodeErr) : obsFold f l (.error e) = .error e := by
  induction l with
  | nil => rfl
  | cons p t ih =>
    unfold obsFold
    simp only [List.foldl_cons]
    exact ih

theorem obsFold_cons (f : Nat → Except DecodeErr (Option Obs)) (p : Nat)
    (l : List Nat) (rs : List Obs) :
    obsFold f (p :: l) (.ok rs) =
      obsFold f l (match f p with
        | .error e => .error e
        | .ok none => .ok rs
        | .ok (some obs) => .ok (rs ++ [obs])) := by
  unfold obsFold
  simp only [List.foldl_cons]
  congr 1
  cases hf : f p with
  | error e => simp [hf, Except.bind, bind]
  | ok o => cases o <;> simp [hf, Except.bind, bind, pure, Except.pure]

theorem obsFold_ok_elim (f : Nat → Except DecodeErr (Option Obs))
    (l : List Nat) :
    ∀ (rs out : List Obs), obsFold f l (.ok rs) = .ok out →
      (∀ p ∈ l, ∃ o, f p = .ok o) ∧
      out = rs ++ l.filterMap (fun p => ((f p).toOption).join) := by
  induction l with
  | nil =>
    intro rs out h
    refine ⟨by simp, ?_⟩
    have : rs = out := by
      simpa [obsFold] using h
    simp [← this]
  | cons p t ih =>
    intro rs out h
    rw [obsFold_cons] at h
    cases hf : f p with
    | error e =>
      rw [hf] at h
      rw [obsFold_error] at h
      exact absurd h (by simp)
    | ok o =>
      rw [hf] at h
      cases o with
      | none =>
        rcases ih rs out h with ⟨hall, hout⟩
        refine ⟨?_, ?_⟩
        · intro q hq
          rcases List.mem_cons.mp hq with rfl | hq
          · exact ⟨none, hf⟩
          · exact hall q hq
        · rw [hout, List.filterMap_cons]
          simp [hf, Except.toOption]
      | some obs =>
        rcases ih (rs ++ [obs]) out h with ⟨hall, hout⟩
        refine ⟨?_, ?_⟩
        · intro q hq
          rcases List.mem_cons.mp hq with rfl | hq
          · exact ⟨some obs, hf⟩
          · exact hall q hq
        · rw [hout, List.filterMap_cons]
          simp [hf, Except.toOption]

theorem obsFold_ok_intro (f : Nat → Except DecodeErr (Option Obs))
    (l : List Nat) :
    ∀ rs : List Obs, (∀ p ∈ l, ∃ o, f p = .ok o) →
      obsFold f l (.ok rs) =
        .ok (rs ++ l.filterMap (fun p => ((f p).toOption).join)) := by
  induction l with
  | nil => intro rs _; simp [obsFold]
  | cons p t ih =>
    intro rs hall
    rw [obsFold_cons]
    rcases hall p (List.mem_cons_self p t) with ⟨o, ho⟩
    have hall' : ∀ q ∈ t, ∃ o, f q = .ok o := fun q hq =>
      hall q (List.mem_cons_of_mem p hq)
    cases o with
    | none =>
      rw [ho, ih rs hall', List.filterMap_cons]
      simp [ho, Except.toOption]
    | some obs =>
      rw [ho, ih (rs ++ [obs]) hall', List.filterMap_cons]
      simp [ho, Except.toOption]

theorem obsFold_append (f : Nat → Except DecodeErr (Option Obs))
    (l1 l2 : List Nat) (acc : Except DecodeErr (List Obs)) :
    obsFold f (l1 ++ l2) acc = obsFold f l2 (obsFold f l1 acc) := by
  unfold obsFold
  exact List.foldl_append _ _ _ _

theorem obsFold_congr (f g : Nat → Except DecodeErr (Option Obs))
    (l : List Nat) (h : ∀ p ∈ l, f p = g p) :
    ∀ acc, obsFold f l acc = obsFold g l acc := by
  induction l with
  | nil => intro acc; rfl
  | cons p t ih =>
    intro acc
    unfold obsFold
    simp only [List.foldl_cons]
    rw [h p (List.mem_cons_self p t)]
    exact ih (fun q hq => h q (List.mem_cons_of_mem p hq)) _

/-! ### Decoder-level structure lemmas -/

theorem decode_unfold (cube : Cube) (cats : List (String × List String))
    (hres : resolveAll cube.ids cube.dimension = .ok cats) :
    jsonstat_to_dataframe cube =
      obsFold (rowAt cube.ids cube.sizes cats cube.value)
        (List.range (n_obs cube.sizes)) (.ok []) := by
  unfold jsonstat_to_dataframe
  rw [hres]
  rfl

theorem decode_ok_elim (cube : Cube) (rows : List Obs)
    (h : jsonstat_to_dataframe cube = .ok rows) :
    ∃ cats, resolveAll cube.ids cube.dimension = .ok cats ∧
      (∀ p, p < n_obs cube.sizes →
        ∃ o, rowAt cube.ids cube.sizes cats cube.value p = .ok o) ∧
      rows = (List.range (n_obs cube.sizes)).filterMap
        (fun p =>
          ((rowAt cube.ids cube.sizes cats cube.value p).toOption).join) := by
  cases hres : resolveAll cube.ids cube.dimension with
  | error e =>
    unfold jsonstat_to_dataframe at h
    rw [hres] at h
    exact absurd h (by simp [Except.bind, bind])
  | ok cats =>
    rw [decode_unfold cube cats hres] at h
    rcases obsFold_ok_elim _ _ _ _ h with ⟨hall, hout⟩
    refine ⟨cats, rfl, ?_, by simpa using hout⟩
    intro p hp
    exact hall p (List.mem_range.mpr hp)

theorem decode_error_intro (cube : Cube) (cats : List (String × List String))
    (p : Nat) (e : DecodeErr)
    (hres : resolveAll cube.ids cube.dimension = .ok cats)
    (hp : p < n_obs cube.sizes)
    (hprev : ∀ q, q < p →
      ∃ o, rowAt cube.ids cube.sizes cats cube.value q = .ok o)
    (herr : rowAt cube.ids cube.sizes cats cube.value p = .error e) :
    jsonstat_to_dataframe cube = .error e := by
  rw [decode_unfold cube cats hres]
  have hsplit : List.range (n_obs cube.sizes) =
      List.range p ++ (p :: List.range' (p + 1) (n_obs cube.sizes - p - 1)) := by
    rw [List.range_eq_range']
    have h1 : List.range' 0 p ++ List.range' p (n_obs cube.sizes - p) =
        List.range' 0 (n_obs cube.sizes) := by
      have := List.range'_append 0 p (n_obs cube.sizes - p) 1
      simpa [Nat.add_comm, Nat.sub_add_cancel (Nat.le_of_lt hp)] using this
    have h2 : n_obs cube.sizes - p = (n_obs cube.sizes - p - 1) + 1 := by omega
    have h3 : List.range' p (n_obs cube.sizes - p) =
        p :: List.range' (p + 1) (n_obs cube.sizes - p - 1) := by
      rw [h2, List.range'_succ]
      congr 2
    rw [← h1, h3, List.range_eq_range']
  rw [hsplit, obsFold_append]
  have hpre : obsFold (rowAt cube.ids cube.sizes cats cube.value)
      (List.range p) (.ok []) =
      .ok ([] ++ (List.range p).filterMap
        (fun q =>
          ((rowAt cube.ids cube.sizes cats cube.value q).toOption).join)) :=
    obsFold_ok_intro _ _ _ (fun q hq => hprev q (List.mem_range.mp hq))
  rw [hpre, obsFold_cons, herr]
  exact obsFold_error _ _ _

/-! ### Stride arithmetic bridges -/

theorem drop_prod_succ (sizes : List Nat) (i : Nat) (hi : i < sizes.length) :
    (sizes.drop i).prod = sizes[i] * (sizes.drop (i + 1)).prod := by
  rw [List.drop_eq_getElem_cons hi, List.prod_cons]

theorem coord_step_div (sizes : List Nat) (i p : Nat) (hi : i < sizes.length) :
    (p % (sizes.drop i).prod) / (sizes.drop (i + 1)).prod = coordOf sizes i p := by
  rw [drop_prod_succ sizes i hi, Nat.mod_mul_left_div_self]
  unfold coordOf
  congr 1
  rw [List.getD_eq_getElem?_getD, List.getElem?_eq_getElem hi]
  rfl

theorem coord_step_mod (sizes : List Nat) (i p : Nat) (hi : i < sizes.length) :
    (p % (sizes.drop i).prod) % (sizes.drop (i + 1)).prod =
      p % (sizes.drop (i + 1)).prod := by
  apply Nat.mod_mod_of_dvd
  rw [drop_prod_succ sizes i hi]
  exact Nat.dvd_mul_left _ _

/-! ### The coordinate loop, step by step -/

theorem coordLoop_step (ids : List String) (cats : List (String × List String))
    (sizes : List Nat) (i k rem : Nat) (acc : List (String × String))
    (hi : i < sizes.length) :
    coordLoop ids cats (stridesLoop sizes) (List.range' i (k + 1)) rem acc =
      (match ids[i]? with
       | none => .error .indexErrorDimIds
       | some dim_name =>
         match dictFind cats dim_name with
         | none => .error .keyErrorCategories
         | some code_list =>
           match code_list[rem / (sizes.drop (i + 1)).prod]? with
           | none => .error .malformedCoordinate
           | some code =>
             coordLoop ids cats (stridesLoop sizes) (List.range' (i + 1) k)
               (rem % (sizes.drop (i + 1)).prod)
               (dictInsert acc dim_name code)) := by
  rw [List.range'_succ]
  show (match (stridesLoop sizes)[i]? with
    | none => Except.error DecodeErr.indexErrorStrides
    | some stride =>
      match ids[i]? with
      | none => Except.error DecodeErr.indexErrorDimIds
      | some dim_name =>
        match dictFind cats dim_name with
        | none => Except.error DecodeErr.keyErrorCategories
        | some code_list =>
          match code_list[rem / stride]? with
          | none => Except.error DecodeErr.malformedCoordinate
          | some code =>
            coordLoop ids cats (stridesLoop sizes) (List.range' (i + 1) k)
              (rem % stride) (dictInsert acc dim_name code)) = _
  rw [stridesLoop_getElem? sizes i hi]

theorem coordLoop_ok_bounds (ids : List String)
    (cats : List (String × List String)) (sizes : List Nat) (p : Nat) :
    ∀ k i acc r, i + k = sizes.length →
      coordLoop ids cats (stridesLoop sizes) (List.range' i k)
        (p % (sizes.drop i).prod) acc = .ok r →
      ∀ j, i ≤ j → j < sizes.length → ∀ nm list,
        ids[j]? = some nm → dictFind cats nm = some list →
        coordOf sizes j p < list.length := by
  intro k
  induction k with
  | zero =>
    intro i acc r hik _ j hij hj
    omega
  | succ k ih =>
    intro i acc r hik hrun j hij hj nm list hid hcat
    have hi : i < sizes.length := by omega
    rw [coordLoop_step ids cats sizes i k _ acc hi] at hrun
    split at hrun
    · exact absurd hrun (by simp)
    · rename_i nm_i hids
      split at hrun
      · exact absurd hrun (by simp)
      · rename_i list_i hcats
        split at hrun
        · exact absurd hrun (by simp)
        · rename_i code hcode
          rcases Nat.eq_or_lt_of_le hij with heq | hlt
          · subst heq
            have h1 : nm_i = nm := by rw [hids] at hid; injection hid
            have h2 : list_i = list := by
              rw [← h1] at hcat; rw [hcats] at hcat; injection hcat
            have hb := (List.getElem?_eq_some.mp hcode).1
            rw [coord_step_div sizes i p hi] at hb
            rw [← h2]
            exact hb
          · rw [coord_step_mod sizes i p hi] at hrun
            exact ih (i + 1) _ r (by omega) hrun j hlt hj nm list hid hcat

theorem coordLoop_ok_coords (ids : List String)
    (cats : List (String × List String)) (sizes : List Nat) (p : Nat)
    (hnd : ids.Nodup) :
    ∀ k i acc rem final, i + k = sizes.length →
      (∀ kv ∈ acc, ∀ j, i ≤ j → j < sizes.length → ids[j]? ≠ some kv.1) →
      coordLoop ids cats (stridesLoop sizes) (List.range' i k)
        (p % (sizes.drop i).prod) acc = .ok (rem, final) →
      final = acc ++ (List.range' i k).map (rowMajorEntry ids sizes cats p) := by
  intro k
  induction k with
  | zero =>
    intro i acc rem final _ _ hrun
    have : acc = final := by
      have : (Except.ok (p % (sizes.drop i).prod, acc) :
          Except DecodeErr (Nat × List (String × String))) = .ok (rem, final) := hrun
      injection this with h
      exact congrArg Prod.snd h
    simp [← this]
  | succ k ih =>
    intro i acc rem final hik hdisj hrun
    have hi : i < sizes.length := by omega
    rw [coordLoop_step ids cats sizes i k _ acc hi] at hrun
    split at hrun
    · exact absurd hrun (by simp)
    · rename_i nm_i hids
      split at hrun
      · exact absurd hrun (by simp)
      · rename_i list_i hcats
        split at hrun
        · exact absurd hrun (by simp)
        · rename_i code hcode
          rw [coord_step_mod sizes i p hi] at hrun
          have hacc : dictInsert acc nm_i code = acc ++ [(nm_i, code)] := by
            apply dictInsert_append_of_notmem
            intro kv hkv heq
            exact hdisj kv hkv i (Nat.le_refl i) hi (by rw [hids, heq])
          rw [hacc] at hrun
          have hdisj' : ∀ kv ∈ acc ++ [(nm_i, code)], ∀ j, i + 1 ≤ j →
              j < sizes.length → ids[j]? ≠ some kv.1 := by
            intro kv hkv j hj1 hjn
            rcases List.mem_append.mp hkv with hm | hm
            · exact hdisj kv hm j (by omega) hjn
            · rcases List.mem_singleton.mp hm with rfl
              intro hc
              rcases List.getElem?_eq_some.mp hids with ⟨hilen, hie⟩
              rcases List.getElem?_eq_some.mp hc with ⟨hjlen, hje⟩
              have : i = j := by
                apply (List.Nodup.getElem_inj_iff hnd).mp
                rw [hie, hje]
              omega
          have hfin := ih (i + 1) (acc ++ [(nm_i, code)]) rem final
            (by omega) hdisj' hrun
          rw [hfin, List.range'_succ, List.map_cons, List.append_assoc]
          congr 1
          have hentry : rowMajorEntry ids sizes cats p i = (nm_i, code) := by
            unfold rowMajorEntry
            have h1 : ids.getD i "" = nm_i := by
              rw [List.getD_eq_getElem?_getD, hids]
              rfl
            rw [h1, hcats]
            have h2 : (some list_i).getD [] = list_i := rfl
            rw [h2]
            have h3 : list_i.getD (coordOf sizes i p) "" = code := by
              rw [List.getD_eq_getElem?_getD, ← coord_step_div sizes i p hi,
                hcode]
              rfl
            rw [h3]
          rw [hentry]
          rfl

theorem coordLoop_error_first (ids : List String)
    (cats : List (String × List String)) (sizes : List Nat) (p j0 : Nat)
    (nm0 : String) (list0 : List String)
    (hj0n : j0 < sizes.length)
    (hid0 : ids[j0]? = some nm0)
    (hcat0 : dictFind cats nm0 = some list0)
    (hge : list0.length ≤ coordOf sizes j0 p)
    (hpre : ∀ j, j < j0 → ∃ nm list,
      ids[j]? = some nm ∧ dictFind cats nm = some list ∧
      coordOf sizes j p < list.length) :
    ∀ k i acc, i + k = sizes.length → i ≤ j0 →
      coordLoop ids cats (stridesLoop sizes) (List.range' i k)
        (p % (sizes.drop i).prod) acc = .error .malformedCoordinate := by
  intro k
  induction k with
  | zero =>
    intro i acc hik hij
    omega
  | succ k ih =>
    intro i acc hik hij
    have hi : i < sizes.length := by omega
    rw [coordLoop_step ids cats sizes i k _ acc hi,
      coord_step_div sizes i p hi, coord_step_mod sizes i p hi]
    rcases Nat.eq_or_lt_of_le hij with heq | hlt
    · subst heq
      rw [hid0]
      simp only []
      rw [hcat0]
      simp only []
      rw [List.getElem?_eq_none hge]
    · rcases hpre i hlt with ⟨nm_i, list_i, hid_i, hcat_i, hlt_i⟩
      rw [hid_i]
      simp only []
      rw [hcat_i]
      simp only []
      rw [List.getElem?_eq_getElem hlt_i]
      exact ih (i + 1) _ (by omega) (by omega)

/-! ### Category resolution, characterized -/

/-- Proof-side generalization of `resolveAll` over a starting accumulator. -/
def resolveAllFrom (ids : List String)
    (dimension : List (String × List (String × Nat)))
    (acc : List (String × List String)) :
    Except DecodeErr (List (String × List String)) :=
  ids.foldlM (fun acc dim_name =>
    match dictFind dimension dim_name with
    | none => .error .keyErrorDimension
    | some index =>
      (resolveCategories index).map (fun codes => dictInsert acc dim_name codes))
    acc

theorem resolveAll_eq_from (ids : List String)
    (dimension : List (String × List (String × Nat))) :
    resolveAll ids dimension = resolveAllFrom ids dimension [] := rfl

theorem resolveAllFrom_cons (nm0 : String) (t : List String)
    (dimension : List (String × List (String × Nat)))
    (acc : List (String × List String)) :
    resolveAllFrom (nm0 :: t) dimension acc =
      (match dictFind dimension nm0 with
       | none => .error .keyErrorDimension
       | some index =>
         match resolveCategories index with
         | .error e => .error e
         | .ok codes => resolveAllFrom t dimension (dictInsert acc nm0 codes)) := by
  unfold resolveAllFrom
  rw [List.foldlM_cons]
  cases hd : dictFind dimension nm0 with
  | none => simp [Except.bind, bind]
  | some index =>
    cases hrc : resolveCategories index with
    | error e => simp [hrc, Except.map, Except.bind, bind]
    | ok codes => simp [hrc, Except.map, Except.bind, bind]

theorem resolveAllFrom_spec (dimension : List (String × List (String × Nat))) :
    ∀ (ids : List String) (acc cats : List (String × List String)),
      resolveAllFrom ids dimension acc = .ok cats →
      (∀ nm ∈ ids, ∃ index codes, dictFind dimension nm = some index ∧
        resolveCategories index = .ok codes ∧ dictFind cats nm = some codes) ∧
      (∀ nm, nm ∉ ids → dictFind cats nm = dictFind acc nm) := by
  intro ids
  induction ids with
  | nil =>
    intro acc cats h
    have : acc = cats := by
      have h' : (Except.ok acc :
          Except DecodeErr (List (String × List String))) = .ok cats := h
      injection h'
    refine ⟨by simp, ?_⟩
    intro nm _
    rw [this]
  | cons nm0 t ih =>
    intro acc cats h
    rw [resolveAllFrom_cons] at h
    split at h
    · exact absurd h (by simp)
    · rename_i index0 hidx0
      split at h
      · exact absurd h (by simp)
      · rename_i codes0 hcodes0
        rcases ih (dictInsert acc nm0 codes0) cats h with ⟨ih1, ih2⟩
        constructor
        · intro nm hnm
          rcases List.mem_cons.mp hnm with rfl | hmem
          · by_cases hmemt : nm ∈ t
            · exact ih1 nm hmemt
            · refine ⟨index0, codes0, hidx0, hcodes0, ?_⟩
              rw [ih2 nm hmemt, dictFind_dictInsert_self]
          · exact ih1 nm hmem
        · intro nm hnm
          have hne : nm ≠ nm0 := fun hc => hnm (hc ▸ List.mem_cons_self nm0 t)
          have hnt : nm ∉ t := fun hc => hnm (List.mem_cons_of_mem nm0 hc)
          rw [ih2 nm hnt, dictFind_dictInsert_other _ _ _ _ hne]

theorem resolveAll_spec (ids : List String)
    (dimension : List (String × List (String × Nat)))
    (cats : List (String × List String))
    (h : resolveAll ids dimension = .ok cats) :
    ∀ nm ∈ ids, ∃ index codes, dictFind dimension nm = some index ∧
      resolveCategories index = .ok codes ∧ dictFind cats nm = some codes := by
  rw [resolveAll_eq_from] at h
  exact (resolveAllFrom_spec dimension ids [] cats h).1

theorem resolveCategories_nil : resolveCategories [] = .ok ["_missing_"] := rfl

/-! ### Placeholder propagation through the coordinate loop -/

theorem coordLoop_ok_missing (ids : List String)
    (cats : List (String × List String)) (strides : List Nat) (nm : String)
    (hcat : dictFind cats nm = some ["_missing_"]) :
    ∀ (L : List Nat) (rem : Nat) (acc : List (String × String))
      (r : Nat × List (String × String)),
      coordLoop ids cats strides L rem acc = .ok r →
      (∀ kv ∈ acc, kv.1 = nm → kv.2 = "_missing_") →
      (∀ kv ∈ r.2, kv.1 = nm → kv.2 = "_missing_") ∧
      (((∃ j ∈ L, ids[j]? = some nm) ∨ (dictFind acc nm).isSome) →
        (dictFind r.2 nm).isSome) := by
  intro L
  induction L with
  | nil =>
    intro rem acc r hrun hQ
    have hr : r = (rem, acc) := by
      have h' : (Except.ok (rem, acc) :
          Except DecodeErr (Nat × List (String × String))) = .ok r := hrun
      injection h' with h
      exact h.symm
    subst hr
    refine ⟨hQ, ?_⟩
    rintro (⟨j, hj, _⟩ | hs)
    · exact absurd hj (List.not_mem_nil j)
    · exact hs
  | cons d t ih =>
    intro rem acc r hrun hQ
    rw [coordLoop] at hrun
    split at hrun
    · exact absurd hrun (by simp)
    · rename_i stride hstride
      split at hrun
      · exact absurd hrun (by simp)
      · rename_i dim_name hids
        split at hrun
        · exact absurd hrun (by simp)
        · rename_i code_list hcats
          simp only [] at hrun
          split at hrun
          · exact absurd hrun (by simp)
          · rename_i code hcode
            have hQins : ∀ kv ∈ dictInsert acc dim_name code,
                kv.1 = nm → kv.2 = "_missing_" := by
              apply dictInsert_forall acc dim_name code _ hQ
              intro heq
              have heq' : dim_name = nm := heq
              show code = "_missing_"
              rw [heq'] at hcats
              rw [hcat] at hcats
              have hlist : code_list = ["_missing_"] := by
                injection hcats with h
                exact h.symm
              have := List.getElem?_mem hcode
              rw [hlist] at this
              simpa using this
            rcases ih _ _ r hrun hQins with ⟨ih1, ih2⟩
            refine ⟨ih1, ?_⟩
            rintro (⟨j, hj, hjid⟩ | hs)
            · rcases List.mem_cons.mp hj with rfl | hjt
              · apply ih2
                right
                have : dim_name = nm := by
                  rw [hids] at hjid
                  injection hjid
                rw [← this, dictFind_dictInsert_self]
                rfl
              · exact ih2 (Or.inl ⟨j, hjt, hjid⟩)
            · exact ih2 (Or.inr (dictFind_isSome_dictInsert acc nm dim_name code hs))

/-! ### Row-level lemmas -/

theorem rowAt_error_of_coordLoop (ids : List String) (sizes : List Nat)
    (cats : List (String × List String)) (value : Store) (p : Nat)
    (e : DecodeErr)
    (h : coordLoop ids cats (stridesLoop sizes) (List.range sizes.length) p []
      = .error e) :
    rowAt ids sizes cats value p = .error e := by
  unfold rowAt
  rw [h]
  rfl

theorem rowAt_ok_parts (ids : List String) (sizes : List Nat)
    (cats : List (String × List String)) (value : Store) (p : Nat)
    (o : Option Obs) (h : rowAt ids sizes cats value p = .ok o) :
    ∃ rc v, coordLoop ids cats (stridesLoop sizes) (List.range sizes.length)
        p [] = .ok rc ∧
      get_value_at value p = .ok v ∧
      o = v.map (fun x => ⟨rc.2, x⟩) := by
  unfold rowAt at h
  cases hc : coordLoop ids cats (stridesLoop sizes) (List.range sizes.length)
      p [] with
  | error e =>
    rw [hc] at h
    exact absurd h (by simp [Except.bind, bind])
  | ok rc =>
    rw [hc] at h
    cases hv : get_value_at value p with
    | error e =>
      rw [hv] at h
      exact absurd h (by simp [Except.bind, bind])
    | ok v =>
      rw [hv] at h
      refine ⟨rc, v, rfl, rfl, ?_⟩
      cases v with
      | none =>
        have h' : (Except.ok (none : Option Obs) :
            Except DecodeErr (Option Obs)) = .ok o := h
        injection h' with h''
        simp [← h'']
      | some x =>
        have h' : (Except.ok (some (⟨rc.2, x⟩ : Obs)) :
            Except DecodeErr (Option Obs)) = .ok o := h
        injection h' with h''
        simp [← h'']

theorem rowAt_intro (ids : List String) (sizes : List Nat)
    (cats : List (String × List String)) (value : Store) (p : Nat)
    (rc : Nat × List (String × String)) (v : Option Int)
    (hc : coordLoop ids cats (stridesLoop sizes) (List.range sizes.length) p []
      = .ok rc)
    (hv : get_value_at value p = .ok v) :
    rowAt ids sizes cats value p = .ok (v.map (fun x => ⟨rc.2, x⟩)) := by
  unfold rowAt
  rw [hc, hv]
  cases v <;> rfl

theorem rowAt_error_of_value (ids : List String) (sizes : List Nat)
    (cats : List (String × List String)) (value : Store) (p : Nat)
    (rc : Nat × List (String × String)) (e : DecodeErr)
    (hc : coordLoop ids cats (stridesLoop sizes) (List.range sizes.length) p []
      = .ok rc)
    (hv : get_value_at value p = .error e) :
    rowAt ids sizes cats value p = .error e := by
  unfold rowAt
  rw [hc, hv]
  rfl

/-! ### Claims C3, C4: concrete round trips -/

/-- C3: decoding the dense 2 by 3 cube with dimensions geo and time, sizes
2 and 3, categories A,B and 2020,2021,2022, and dense values 1..6 yields
exactly the six observations of the spec, in that exact order. -/
theorem C3_dense_round_trip :
    jsonstat_to_dataframe
        (geoTimeCube (.dense [some 1, some 2, some 3, some 4, some 5, some 6]))
      = .ok
        [⟨[("geo", "A"), ("time", "2020")], 1⟩,
         ⟨[("geo", "A"), ("time", "2021")], 2⟩,
         ⟨[("geo", "A"), ("time", "2022")], 3⟩,
         ⟨[("geo", "B"), ("time", "2020")], 4⟩,
         ⟨[("geo", "B"), ("time", "2021")], 5⟩,
         ⟨[("geo", "B"), ("time", "2022")], 6⟩] := by
  decide

/-- C4: decoding the same 2 by 3 cube with a sparse store holding only keys
"0", "3", "5" mapped to 1, 4, 6 yields exactly the three observations of the
spec, in order. -/
theorem C4_sparse_store :
    jsonstat_to_dataframe
        (geoTimeCube (.sparse [("0", some 1), ("3", some 4), ("5", some 6)]))
      = .ok
        [⟨[("geo", "A"), ("time", "2020")], 1⟩,
         ⟨[("geo", "B"), ("time", "2020")], 4⟩,
         ⟨[("geo", "B"), ("time", "2022")], 6⟩] := by
  decide

/-! ### Claim C5: empty dimension list -/

/-- C5: counterexample — the claim says a cube with an empty dimension list
must fail with an `InvalidCube` error and must not succeed with an empty
result; the code instead returns successfully with zero rows on this cube. -/
theorem C5_counterexample :
    jsonstat_to_dataframe ⟨[], [], [], .sparse []⟩ = .ok [] := by
  decide

/-- C5 (amended): for every cube whose dimension list (id and size vectors)
is empty, the decoder does not fail with any cube-validity error: it treats
the cube as having exactly one flat position and returns the value found at
flat position 0 as at most one observation with no dimension columns (an
error arises only if `get_value_at` itself raises, i.e. on an empty dense
store). -/
theorem C5_empty_dims_amended (cube : Cube) (hids : cube.ids = [])
    (hsizes : cube.sizes = []) :
    jsonstat_to_dataframe cube =
      (get_value_at cube.value 0).map (fun v =>
        match v with
        | none => ([] : List Obs)
        | some x => [⟨[], x⟩]) := by
  obtain ⟨ids, sizes, dimension, value⟩ := cube
  simp only [] at hids hsizes
  subst hids
  subst hsizes
  cases hv : get_value_at value 0 with
  | error e =>
    simp [jsonstat_to_dataframe, resolveAll, obsFold, rowAt, n_obs, coordLoop,
      hv, Except.bind, bind, Except.map, pure, Except.pure, List.range_succ]
  | ok v =>
    cases v with
    | none =>
      simp [jsonstat_to_dataframe, resolveAll, obsFold, rowAt, n_obs, coordLoop,
        hv, Except.bind, bind, Except.map, pure, Except.pure, List.range_succ]
    | some x =>
      simp [jsonstat_to_dataframe, resolveAll, obsFold, rowAt, n_obs, coordLoop,
        hv, Except.bind, bind, Except.map, pure, Except.pure, List.range_succ]

/-- C5 (witness): the amended statement instantiated at a concrete empty-
dimension cube with a one-entry dense store. -/
theorem C5_empty_dims_amended_witness :
    (Cube.mk [] [] [] (.dense [some 7])).ids = [] ∧
    (Cube.mk [] [] [] (.dense [some 7])).sizes = [] ∧
    jsonstat_to_dataframe ⟨[], [], [], .dense [some 7]⟩ =
      (get_value_at (.dense [some 7]) 0).map (fun v =>
        match v with
        | none => ([] : List Obs)
        | some x => [⟨[], x⟩]) :=
  ⟨rfl, rfl, C5_empty_dims_amended ⟨[], [], [], .dense [some 7]⟩ rfl rfl⟩

/-! ### Claim C6: unrecognized store and dense length mismatch -/

/-- C6: counterexample — the claim says a cube whose value store is neither a
dense sequence nor a sparse mapping must fail with an `InvalidCube` error;
on the 2 by 3 test cube with such a store the code instead succeeds,
returning zero rows (every lookup yields `None` and is skipped). -/
theorem C6_counterexample :
    jsonstat_to_dataframe (geoTimeCube .other) = .ok [] := by
  decide

/-- C6 (amended): a value store that is neither dense-sequence-like nor
sparse-mapping-like is never itself a source of failure — its value lookup
always returns `None` — so whenever the decode of such a cube succeeds it
emits zero observations (any failure of such a cube comes from dimension,
category or coordinate processing, never from the store type, and the
decode is never rejected with a cube-validity error for the store alone).
A dense store shorter than the declared size product never lets the decode
succeed, so no truncated or misaligned rows are ever emitted; and when the
cube is otherwise decodable that far — categories resolve, every position
below the store's length decodes, and the coordinates of the first
unaddressable position are in range — the decode fails with exactly the
`indexErrorValue` error, the embedding of the `value[idx]` `IndexError`,
not an `InvalidCube` kind. -/
theorem C6_store_amended (cube : Cube) :
    (∀ p, get_value_at .other p = .ok none) ∧
    (∀ rows, cube.value = .other →
      jsonstat_to_dataframe cube = .ok rows → rows = []) ∧
    (∀ vals, cube.value = .dense vals → vals.length < n_obs cube.sizes →
      ∀ rows, jsonstat_to_dataframe cube ≠ .ok rows) ∧
    (∀ vals cats rc, cube.value = .dense vals →
      vals.length < n_obs cube.sizes →
      resolveAll cube.ids cube.dimension = .ok cats →
      (∀ q, q < vals.length →
        ∃ o, rowAt cube.ids cube.sizes cats cube.value q = .ok o) →
      coordLoop cube.ids cats (stridesLoop cube.sizes)
        (List.range cube.sizes.length) vals.length [] = .ok rc →
      jsonstat_to_dataframe cube = .error .indexErrorValue) := by
  refine ⟨fun p => rfl, ?_, ?_, ?_⟩
  · intro rows hother hok
    rcases decode_ok_elim cube rows hok with ⟨cats, _, hall, hout⟩
    rw [hout]
    rw [List.filterMap_eq_nil_iff]
    intro p hp
    rcases hall p (List.mem_range.mp hp) with ⟨o, ho⟩
    rcases rowAt_ok_parts _ _ _ _ _ _ ho with ⟨rc, v, _, hv, hmap⟩
    rw [hother] at hv
    have hvnone : v = none := by
      have : (Except.ok (none : Option Int) :
          Except DecodeErr (Option Int)) = .ok v := hv
      injection this with h
      exact h.symm
    rw [ho]
    simp [Except.toOption, hmap, hvnone]
  · intro vals hdense hlen rows hdec
    rcases decode_ok_elim cube rows hdec with ⟨cats, _, hall, _⟩
    rcases hall vals.length hlen with ⟨o, ho⟩
    rcases rowAt_ok_parts _ _ _ _ _ _ ho with ⟨rc, v, _, hv, _⟩
    rw [hdense] at hv
    unfold get_value_at at hv
    simp only [] at hv
    rw [List.getElem?_eq_none (Nat.le_refl vals.length)] at hv
    exact absurd hv (by simp)
  · intro vals cats rc hdense hlen hres hprev hc
    have hv : get_value_at cube.value vals.length = .error .indexErrorValue := by
      rw [hdense]
      unfold get_value_at
      simp only []
      rw [List.getElem?_eq_none (Nat.le_refl vals.length)]
    exact decode_error_intro cube cats vals.length .indexErrorValue hres hlen
      hprev (rowAt_error_of_value cube.ids cube.sizes cats cube.value
        vals.length rc .indexErrorValue hc hv)

/-- C6 (witness): the amended conjuncts at concrete cubes — the 2 by 3 cube
with a two-entry dense store cannot decode, and since its first two
positions decode and the coordinates of position 2 are in range, it fails
with exactly `indexErrorValue`. -/
theorem C6_store_amended_witness :
    (geoTimeCube (.dense [some 1, some 2])).value = .dense [some 1, some 2] ∧
    ([some (1 : Int), some 2] : List (Option Int)).length <
      n_obs (geoTimeCube (.dense [some 1, some 2])).sizes ∧
    resolveAll (geoTimeCube (.dense [some 1, some 2])).ids
      (geoTimeCube (.dense [some 1, some 2])).dimension =
      .ok [("geo", ["A", "B"]), ("time", ["2020", "2021", "2022"])] ∧
    coordLoop (geoTimeCube (.dense [some 1, some 2])).ids
      [("geo", ["A", "B"]), ("time", ["2020", "2021", "2022"])]
      (stridesLoop (geoTimeCube (.dense [some 1, some 2])).sizes)
      (List.range (geoTimeCube (.dense [some 1, some 2])).sizes.length) 2 []
      = .ok (0, [("geo", "A"), ("time", "2022")]) ∧
    (∀ rows, jsonstat_to_dataframe (geoTimeCube (.dense [some 1, some 2]))
      ≠ .ok rows) ∧
    jsonstat_to_dataframe (geoTimeCube (.dense [some 1, some 2]))
      = .error .indexErrorValue := by
  refine ⟨rfl, by decide, by decide, by decide, ?_, ?_⟩
  · exact (C6_store_amended (geoTimeCube (.dense [some 1, some 2]))).2.2.1
      [some 1, some 2] rfl (by decide)
  · refine (C6_store_amended (geoTimeCube (.dense [some 1, some 2]))).2.2.2
      [some 1, some 2] [("geo", ["A", "B"]), ("time", ["2020", "2021", "2022"])]
      (0, [("geo", "A"), ("time", "2022")]) rfl (by decide) (by decide) ?_
      (by decide)
    intro q hq
    have hq2 : q < 2 := by simpa using hq
    interval_cases q
    · exact ⟨some ⟨[("geo", "A"), ("time", "2020")], 1⟩, by decide⟩
    · exact ⟨some ⟨[("geo", "A"), ("time", "2021")], 2⟩, by decide⟩

/-! ### Claim C9: determinism -/

/-- C9: the decoder is a pure function of the four cube fields it reads:
two cubes agreeing on `id`, `size`, `dimension` and `value` decode to the
same output sequence, so decoding the same cube twice yields identical
sequences and no state other than the input can affect the result.  (The
absence of in-place mutation of the input is a fact about the Python
runtime checked by inspection — the decoder only builds fresh dicts and
lists — and is what justifies this pure embedding.) -/
theorem C9_deterministic (c1 c2 : Cube) (h1 : c1.ids = c2.ids)
    (h2 : c1.sizes = c2.sizes) (h3 : c1.dimension = c2.dimension)
    (h4 : c1.value = c2.value) :
    jsonstat_to_dataframe c1 = jsonstat_to_dataframe c2 := by
  obtain ⟨i1, s1, d1, v1⟩ := c1
  obtain ⟨i2, s2, d2, v2⟩ := c2
  simp only [] at h1 h2 h3 h4
  subst h1
  subst h2
  subst h3
  subst h4
  rfl

/-- C9 (witness): decoding the concrete 2 by 3 dense cube twice yields the
same sequence. -/
theorem C9_deterministic_witness :
    jsonstat_to_dataframe
        (geoTimeCube (.dense [some 1, some 2, some 3, some 4, some 5, some 6]))
      = jsonstat_to_dataframe
        (geoTimeCube (.dense [some 1, some 2, some 3, some 4, some 5, some 6])) :=
  C9_deterministic _ _ rfl rfl rfl rfl

/-! ### Claim C1: strides, stride decoding, and emission order -/

/-- C1: for every cube that decodes successfully, (1) the computed strides are
the standard row-major ones — the stride of dimension `i` is the product of
all sizes after it (so the last dimension's stride is 1); (2) the emitted
rows are exactly the per-flat-position rows of positions `0, 1, ...` in
increasing flat-position order, one per position with a present value, not
reordered by any dimension value; and (3) under unique dimension ids, the
coordinate row produced for flat position `p` by the successive
division/remainder loop is exactly the closed-form row-major decoding
`rowMajorCoords`. -/
theorem C1_row_major (cube : Cube) (cats : List (String × List String))
    (rows : List Obs)
    (hres : resolveAll cube.ids cube.dimension = .ok cats)
    (hok : jsonstat_to_dataframe cube = .ok rows) :
    (∀ i, i < cube.sizes.length →
      (stridesLoop cube.sizes)[i]? = some ((cube.sizes.drop (i + 1)).prod)) ∧
    rows = (List.range (n_obs cube.sizes)).filterMap
      (fun p => ((rowAt cube.ids cube.sizes cats cube.value p).toOption).join) ∧
    (cube.ids.Nodup → ∀ p, p < n_obs cube.sizes → ∀ obs,
      rowAt cube.ids cube.sizes cats cube.value p = .ok (some obs) →
      obs.coords = rowMajorCoords cube.ids cube.sizes cats p) := by
  rcases decode_ok_elim cube rows hok with ⟨cats', hres', hall, hout⟩
  have hcats : cats' = cats := by
    rw [hres] at hres'
    injection hres' with h
    exact h.symm
  rw [hcats] at hall hout
  refine ⟨fun i hi => stridesLoop_getElem? cube.sizes i hi, hout, ?_⟩
  intro hnd p hp obs hrow
  rcases rowAt_ok_parts _ _ _ _ _ _ hrow with ⟨rc, v, hc, _, hmap⟩
  have hobs : obs.coords = rc.2 := by
    cases v with
    | none => exact absurd hmap (by simp)
    | some x =>
      have : some obs = some (⟨rc.2, x⟩ : Obs) := by simpa using hmap
      injection this with h
      rw [h]
  have hplt : p % (cube.sizes.drop 0).prod = p := by
    rw [List.drop_zero]
    exact Nat.mod_eq_of_lt (by rw [← n_obs_eq_prod]; exact hp)
  have hc' : coordLoop cube.ids cats (stridesLoop cube.sizes)
      (List.range' 0 cube.sizes.length)
      (p % (cube.sizes.drop 0).prod) [] = .ok rc := by
    rw [hplt, ← List.range_eq_range']
    exact hc
  have := coordLoop_ok_coords cube.ids cats cube.sizes p hnd
    cube.sizes.length 0 [] rc.1 rc.2 (by omega) (by simp) (by
      rw [← (by rfl : (rc.1, rc.2) = rc)] at hc'
      exact hc')
  rw [hobs, this, rowMajorCoords, List.range_eq_range']
  rfl

/-- C1 (witness): the row-major statement instantiated at the concrete
2 by 3 dense cube. -/
theorem C1_row_major_witness :
    resolveAll
        (geoTimeCube (.dense [some 1, some 2, some 3, some 4, some 5, some 6])).ids
        (geoTimeCube (.dense [some 1, some 2, some 3, some 4, some 5, some 6])).dimension
      = .ok [("geo", ["A", "B"]), ("time", ["2020", "2021", "2022"])] ∧
    jsonstat_to_dataframe
        (geoTimeCube (.dense [some 1, some 2, some 3, some 4, some 5, some 6]))
      = .ok
        [⟨[("geo", "A"), ("time", "2020")], 1⟩,
         ⟨[("geo", "A"), ("time", "2021")], 2⟩,
         ⟨[("geo", "A"), ("time", "2022")], 3⟩,
         ⟨[("geo", "B"), ("time", "2020")], 4⟩,
         ⟨[("geo", "B"), ("time", "2021")], 5⟩,
         ⟨[("geo", "B"), ("time", "2022")], 6⟩] ∧
    ((∀ i, i < (geoTimeCube (.dense [some 1, some 2, some 3, some 4, some 5, some 6])).sizes.length →
      (stridesLoop (geoTimeCube (.dense [some 1, some 2, some 3, some 4, some 5, some 6])).sizes)[i]?
        = some (((geoTimeCube (.dense [some 1, some 2, some 3, some 4, some 5, some 6])).sizes.drop (i + 1)).prod)) ∧
    [⟨[("geo", "A"), ("time", "2020")], 1⟩,
     ⟨[("geo", "A"), ("time", "2021")], 2⟩,
     ⟨[("geo", "A"), ("time", "2022")], 3⟩,
     ⟨[("geo", "B"), ("time", "2020")], 4⟩,
     ⟨[("geo", "B"), ("time", "2021")], 5⟩,
     ⟨[("geo", "B"), ("time", "2022")], 6⟩] =
      (List.range (n_obs (geoTimeCube (.dense [some 1, some 2, some 3, some 4, some 5, some 6])).sizes)).filterMap
        (fun p => ((rowAt
          (geoTimeCube (.dense [some 1, some 2, some 3, some 4, some 5, some 6])).ids
          (geoTimeCube (.dense [some 1, some 2, some 3, some 4, some 5, some 6])).sizes
          [("geo", ["A", "B"]), ("time", ["2020", "2021", "2022"])]
          (geoTimeCube (.dense [some 1, some 2, some 3, some 4, some 5, some 6])).value p).toOption).join) ∧
    ((geoTimeCube (.dense [some 1, some 2, some 3, some 4, some 5, some 6])).ids.Nodup →
      ∀ p, p < n_obs (geoTimeCube (.dense [some 1, some 2, some 3, some 4, some 5, some 6])).sizes →
      ∀ obs, rowAt
          (geoTimeCube (.dense [some 1, some 2, some 3, some 4, some 5, some 6])).ids
          (geoTimeCube (.dense [some 1, some 2, some 3, some 4, some 5, some 6])).sizes
          [("geo", ["A", "B"]), ("time", ["2020", "2021", "2022"])]
          (geoTimeCube (.dense [some 1, some 2, some 3, some 4, some 5, some 6])).value p = .ok (some obs) →
        obs.coords = rowMajorCoords
          (geoTimeCube (.dense [some 1, some 2, some 3, some 4, some 5, some 6])).ids
          (geoTimeCube (.dense [some 1, some 2, some 3, some 4, some 5, some 6])).sizes
          [("geo", ["A", "B"]), ("time", ["2020", "2021", "2022"])] p)) :=
  ⟨by decide, by decide,
    C1_row_major (geoTimeCube (.dense [some 1, some 2, some 3, some 4, some 5, some 6]))
      [("geo", ["A", "B"]), ("time", ["2020", "2021", "2022"])] _
      (by decide) (by decide)⟩

/-! ### Decimal representation: `str(idx)` is injective -/

/-- Decimal digit list of a natural number, most significant digit first
(the list that `Nat.toDigitsCore` builds). -/
def decRep (n : Nat) : List Char :=
  if h : n < 10 then [Nat.digitChar n]
  else decRep (n / 10) ++ [Nat.digitChar (n % 10)]
decreasing_by
  have h10 : 10 ≤ n := Nat.le_of_not_lt h
  exact Nat.div_lt_self (by omega) (by omega)

theorem toDigitsCore_eq_decRep :
    ∀ (fuel n : Nat) (ds : List Char), n < fuel →
      Nat.toDigitsCore 10 fuel n ds = decRep n ++ ds := by
  intro fuel
  induction fuel with
  | zero => intro n ds h; omega
  | succ fuel ih =>
    intro n ds h
    show (if n / 10 = 0 then Nat.digitChar (n % 10) :: ds
      else Nat.toDigitsCore 10 fuel (n / 10) (Nat.digitChar (n % 10) :: ds))
      = decRep n ++ ds
    by_cases h0 : n / 10 = 0
    · have hn : n < 10 := (Nat.div_eq_zero_iff (by omega)).mp h0
      rw [if_pos h0, decRep, dif_pos hn, Nat.mod_eq_of_lt hn]
      rfl
    · have hn : ¬n < 10 := by
        intro hc
        exact h0 ((Nat.div_eq_zero_iff (by omega)).mpr hc)
      have hlt : n / 10 < fuel := by
        have h1 : n / 10 < n := Nat.div_lt_self (by omega) (by omega)
        omega
      rw [if_neg h0, ih (n / 10) _ hlt]
      conv_rhs => rw [decRep]
      rw [dif_neg hn, List.append_assoc]
      rfl

theorem repr_eq_decRep (n : Nat) : Nat.repr n = (decRep n).asString := by
  show (Nat.toDigitsCore 10 (n + 1) n []).asString = (decRep n).asString
  rw [toDigitsCore_eq_decRep (n + 1) n [] (Nat.lt_succ_self n),
    List.append_nil]

/-- Value of a most-significant-first decimal digit list. -/
def digitsVal (l : List Char) : Nat :=
  l.foldl (fun a c => a * 10 + (c.toNat - 48)) 0

theorem digitsVal_from (a : Nat) (l : List Char) (c : Char) :
    (l ++ [c]).foldl (fun a c => a * 10 + (c.toNat - 48)) a =
      (l.foldl (fun a c => a * 10 + (c.toNat - 48)) a) * 10 + (c.toNat - 48) := by
  rw [List.foldl_append]
  rfl

theorem digitChar_val (d : Nat) (hd : d < 10) :
    (Nat.digitChar d).toNat - 48 = d := by
  interval_cases d <;> decide

theorem digitsVal_decRep (n : Nat) : digitsVal (decRep n) = n := by
  induction n using Nat.strong_induction_on with
  | _ n ih =>
    by_cases h : n < 10
    · rw [decRep, dif_pos h]
      show 0 * 10 + ((Nat.digitChar n).toNat - 48) = n
      rw [digitChar_val n h]
      omega
    · rw [decRep, dif_neg h]
      unfold digitsVal
      rw [digitsVal_from]
      have h1 : n / 10 < n :=
        Nat.div_lt_self (by omega) (by omega)
      have h2 := ih (n / 10) h1
      unfold digitsVal at h2
      rw [h2, digitChar_val (n % 10) (Nat.mod_lt n (by omega))]
      have := Nat.div_add_mod n 10
      omega

theorem natRepr_injective : Function.Injective Nat.repr := by
  intro a b h
  rw [repr_eq_decRep, repr_eq_decRep] at h
  have hd : decRep a = decRep b := congrArg String.data h
  have ha := digitsVal_decRep a
  have hb := digitsVal_decRep b
  rw [← ha, ← hb, hd]

/-! ### Counting lemmas -/

theorem length_filterMap_countP {α β : Type} (f : α → Option β) (l : List α) :
    (l.filterMap f).length = l.countP (fun a => (f a).isSome) := by
  induction l with
  | nil => rfl
  | cons a t ih =>
    rw [List.filterMap_cons]
    cases hf : f a with
    | none => rw [List.countP_cons_of_neg _ _ (by simp [hf])]; exact ih
    | some b =>
      rw [List.countP_cons_of_pos _ _ (by simp [hf])]
      simp only [List.length_cons, ih]

theorem range_countP_getElem {α : Type} (l : List α) (q : Option α → Bool) :
    (List.range l.length).countP (fun p => q l[p]?) =
      l.countP (fun a => q (some a)) := by
  induction l with
  | nil => rfl
  | cons a t ih =>
    rw [List.length_cons, List.range_succ_eq_map, List.countP_cons,
      List.countP_map, List.countP_cons]
    have h0 : (a :: t)[(0 : Nat)]? = some a := by simp
    have hcomp : ((fun p => q (a :: t)[p]?) ∘ Nat.succ) =
        (fun p => q t[p]?) := by
      funext p
      simp [Function.comp]
    rw [hcomp, ih, h0]

theorem dictFind_eq_none_iff {κ ν : Type} [BEq κ] [LawfulBEq κ]
    (d : List (κ × ν)) (k : κ) :
    dictFind d k = none ↔ ∀ kv ∈ d, kv.1 ≠ k := by
  unfold dictFind
  rw [Option.map_eq_none', List.find?_eq_none]
  constructor
  · intro h kv hm
    simpa using h kv hm
  · intro h kv hm
    simpa using h kv hm

theorem isPresent_dense (vals : List (Option Int)) (p : Nat) :
    isPresent (.dense vals) p = ((vals[p]?).join).isSome := by
  unfold isPresent get_value_at
  cases h : vals[p]? with
  | none => simp [h]
  | some v => cases v <;> simp [h]

theorem isPresent_sparse (es : List (String × Option Int)) (p : Nat) :
    isPresent (.sparse es) p = ((dictFind es (Nat.repr p)).join).isSome := by
  unfold isPresent get_value_at
  cases h : dictFind es (Nat.repr p) with
  | none => simp [h]
  | some v => cases v <;> simp [h]

/-! ### Claim C2: observation count -/

/-- C2: for every cube that decodes successfully, the number of emitted
observations equals the number of flat positions holding a present value and
never exceeds the total flat-position count; for a well-formed dense store
(length equal to the size product) it is the number of non-null entries, and
for a well-formed sparse store (distinct keys that are decimal strings of
in-range positions, mapped to non-null values) it is the number of keys
present.  An absent value thus contributes no observation at all. -/
theorem C2_observation_count (cube : Cube) (rows : List Obs)
    (hok : jsonstat_to_dataframe cube = .ok rows) :
    rows.length = presentCount cube.value (n_obs cube.sizes) ∧
    rows.length ≤ n_obs cube.sizes ∧
    (∀ vals, cube.value = .dense vals → vals.length = n_obs cube.sizes →
      rows.length = vals.countP (fun v => v.isSome)) ∧
    (∀ es, cube.value = .sparse es →
      (es.map (fun e => e.1)).Nodup →
      (∀ e ∈ es, (∃ p, p < n_obs cube.sizes ∧ e.1 = Nat.repr p) ∧
        e.2.isSome = true) →
      rows.length = es.length) := by
  rcases decode_ok_elim cube rows hok with ⟨cats, hres, hall, hout⟩
  have hlen : rows.length = presentCount cube.value (n_obs cube.sizes) := by
    rw [hout, length_filterMap_countP]
    unfold presentCount
    apply List.countP_congr
    intro p hp
    rcases hall p (List.mem_range.mp hp) with ⟨o, ho⟩
    rcases rowAt_ok_parts _ _ _ _ _ _ ho with ⟨rc, v, _, hv, hmap⟩
    rw [ho]
    unfold isPresent
    rw [hv]
    cases v with
    | none => simp [hmap, Except.toOption]
    | some x => simp [hmap, Except.toOption]
  refine ⟨hlen, ?_, ?_, ?_⟩
  · rw [hlen]
    unfold presentCount
    calc (List.range (n_obs cube.sizes)).countP (isPresent cube.value)
        ≤ (List.range (n_obs cube.sizes)).length := List.countP_le_length _
      _ = n_obs cube.sizes := List.length_range _
  · intro vals hv hvl
    rw [hlen, hv]
    unfold presentCount
    have hcong : (List.range (n_obs cube.sizes)).countP
          (isPresent (.dense vals)) =
        (List.range (n_obs cube.sizes)).countP
          (fun p => ((vals[p]?).join).isSome) :=
      List.countP_congr (fun p _ => by rw [isPresent_dense])
    rw [hcong, ← hvl, range_countP_getElem vals (fun o => (o.join).isSome)]
    rfl
  · intro es hv hnd hwf
    rw [hlen, hv]
    unfold presentCount
    have hcong : (List.range (n_obs cube.sizes)).countP
          (isPresent (.sparse es)) =
        (List.range (n_obs cube.sizes)).countP
          (fun p => (dictFind es (Nat.repr p)).isSome) := by
      apply List.countP_congr
      intro p _
      rw [isPresent_sparse]
      cases hf : dictFind es (Nat.repr p) with
      | none => simp
      | some v =>
        have hmem := dictFind_mem es (Nat.repr p) v hf
        have hvs := (hwf _ hmem).2
        simp only [Option.join] at hvs ⊢
        cases v with
        | none => simp at hvs
        | some x => simp
    rw [hcong, List.countP_eq_length_filter]
    have hlnd : ((List.range (n_obs cube.sizes)).filter
        (fun p => (dictFind es (Nat.repr p)).isSome)).Nodup :=
      (List.nodup_range _).filter _
    have hmapnd : (((List.range (n_obs cube.sizes)).filter
        (fun p => (dictFind es (Nat.repr p)).isSome)).map Nat.repr).Nodup :=
      hlnd.map natRepr_injective
    have hperm : (((List.range (n_obs cube.sizes)).filter
          (fun p => (dictFind es (Nat.repr p)).isSome)).map Nat.repr).Perm
        (es.map (fun e => e.1)) := by
      rw [List.perm_ext_iff_of_nodup hmapnd hnd]
      intro x
      constructor
      · intro hx
        rcases List.mem_map.mp hx with ⟨p, hp, rfl⟩
        have hp2 := List.of_mem_filter hp
        rcases Option.isSome_iff_exists.mp hp2 with ⟨w, hw⟩
        exact List.mem_map.mpr ⟨(Nat.repr p, w), dictFind_mem es _ w hw, rfl⟩
      · intro hx
        rcases List.mem_map.mp hx with ⟨e, he, rfl⟩
        rcases (hwf e he).1 with ⟨p, hpn, hpe⟩
        refine List.mem_map.mpr ⟨p, List.mem_filter.mpr
          ⟨List.mem_range.mpr hpn, ?_⟩, hpe.symm⟩
        cases hf : dictFind es (Nat.repr p) with
        | some w => rfl
        | none =>
          have := (dictFind_eq_none_iff es (Nat.repr p)).mp hf e he
          exact absurd hpe this
    have hl1 := List.length_map ((List.range (n_obs cube.sizes)).filter
      (fun p => (dictFind es (Nat.repr p)).isSome)) Nat.repr
    have hl2 := hperm.length_eq
    have hl3 := List.length_map es (fun e => e.1)
    omega

/-- C2 (witness): the count statement at the concrete sparse 2 by 3 cube
(three keys, three observations). -/
theorem C2_observation_count_witness :
    jsonstat_to_dataframe
        (geoTimeCube (.sparse [("0", some 1), ("3", some 4), ("5", some 6)]))
      = .ok
        [⟨[("geo", "A"), ("time", "2020")], 1⟩,
         ⟨[("geo", "B"), ("time", "2020")], 4⟩,
         ⟨[("geo", "B"), ("time", "2022")], 6⟩] ∧
    ([⟨[("geo", "A"), ("time", "2020")], 1⟩,
      ⟨[("geo", "B"), ("time", "2020")], 4⟩,
      ⟨[("geo", "B"), ("time", "2022")], 6⟩] : List Obs).length =
      presentCount
        (geoTimeCube (.sparse [("0", some 1), ("3", some 4), ("5", some 6)])).value
        (n_obs (geoTimeCube (.sparse [("0", some 1), ("3", some 4), ("5", some 6)])).sizes) ∧
    ([⟨[("geo", "A"), ("time", "2020")], 1⟩,
      ⟨[("geo", "B"), ("time", "2020")], 4⟩,
      ⟨[("geo", "B"), ("time", "2022")], 6⟩] : List Obs).length ≤
      n_obs (geoTimeCube (.sparse [("0", some 1), ("3", some 4), ("5", some 6)])).sizes := by
  refine ⟨by decide, ?_, ?_⟩
  · exact (C2_observation_count _ _ (by decide)).1
  · exact (C2_observation_count _ _ (by decide)).2.1

/-! ### Claim C7: empty-category placeholder -/

/-- Helper: at a flat position below the total count, the initial `remaining`
equals its own residue, matching the coordinate-loop invariant. -/
theorem coordLoop_range (ids : List String)
    (cats : List (String × List String)) (sizes : List Nat) (p : Nat)
    (acc : List (String × String)) (hp : p < sizes.prod) :
    coordLoop ids cats (stridesLoop sizes) (List.range sizes.length) p acc =
      coordLoop ids cats (stridesLoop sizes) (List.range' 0 sizes.length)
        (p % (sizes.drop 0).prod) acc := by
  rw [List.range_eq_range', List.drop_zero, Nat.mod_eq_of_lt hp]

/-- C7: counterexample — the claim says the placeholder makes the size used
for the empty axis become 1 independently of the declared size, and that
decoding completes without raising; on this cube (declared size 2, no
categories) the code keeps using the declared size 2 and fails at flat
position 1 with the embedded `IndexError` of `code_list[coord_index]`. -/
theorem C7_counterexample :
    jsonstat_to_dataframe ⟨["a"], [2], [("a", [])], .dense [some 1, some 2]⟩
      = .error .malformedCoordinate := by
  decide

/-- C7 (amended): a dimension that supplies no categories is resolved to the
single-element placeholder list `["_missing_"]`, but the size used for that
axis remains the originally declared size: whenever the decode succeeds,
every emitted observation maps that dimension to `"_missing_"`, and if the
declared size of that axis is at least 2 (all declared sizes positive, id
and size vectors parallel) the decode cannot succeed at all. -/
theorem C7_placeholder_amended (cube : Cube) (d : Nat) (nm : String)
    (hlen : cube.ids.length = cube.sizes.length)
    (hid : cube.ids[d]? = some nm)
    (hdim : dictFind cube.dimension nm = some []) :
    resolveCategories [] = .ok ["_missing_"] ∧
    (∀ rows, jsonstat_to_dataframe cube = .ok rows →
      ∀ obs ∈ rows, (nm, "_missing_") ∈ obs.coords) ∧
    (2 ≤ cube.sizes.getD d 0 → (∀ s ∈ cube.sizes, 0 < s) →
      ∀ rows, jsonstat_to_dataframe cube ≠ .ok rows) := by
  have hdlt : d < cube.ids.length := (List.getElem?_eq_some.mp hid).1
  have hnmmem : nm ∈ cube.ids := List.getElem?_mem hid
  have hcatsfind : ∀ cats, resolveAll cube.ids cube.dimension = .ok cats →
      dictFind cats nm = some ["_missing_"] := by
    intro cats hres
    rcases resolveAll_spec cube.ids cube.dimension cats hres nm hnmmem with
      ⟨index, codes, hfind, hrescat, hlook⟩
    have hidx : index = [] := by
      rw [hdim] at hfind
      injection hfind with h
      exact h.symm
    rw [hidx] at hrescat
    have hcodes : codes = ["_missing_"] := by
      rw [resolveCategories_nil] at hrescat
      injection hrescat with h
      exact h.symm
    rw [hcodes] at hlook
    exact hlook
  refine ⟨rfl, ?_, ?_⟩
  · intro rows hok obs hobs
    rcases decode_ok_elim cube rows hok with ⟨cats, hres, hall, hout⟩
    have hcat := hcatsfind cats hres
    rw [hout] at hobs
    rcases List.mem_filterMap.mp hobs with ⟨p, hp, hfp⟩
    rcases hall p (List.mem_range.mp hp) with ⟨o, ho⟩
    have hosome : o = some obs := by
      rw [ho] at hfp
      simpa [Except.toOption] using hfp
    rw [hosome] at ho
    rcases rowAt_ok_parts _ _ _ _ _ _ ho with ⟨rc, v, hc, _, hmap⟩
    have hcoords : obs.coords = rc.2 := by
      cases v with
      | none => exact absurd hmap (by simp)
      | some x =>
        have : some obs = some (⟨rc.2, x⟩ : Obs) := by simpa using hmap
        injection this with h
        rw [h]
    rcases coordLoop_ok_missing cube.ids cats (stridesLoop cube.sizes) nm hcat
        (List.range cube.sizes.length) p [] rc hc (by simp) with ⟨hQ, hPres⟩
    have hdsz : d < cube.sizes.length := by rw [← hlen]; exact hdlt
    have hsome := hPres (Or.inl ⟨d, List.mem_range.mpr hdsz, hid⟩)
    rcases Option.isSome_iff_exists.mp hsome with ⟨w, hw⟩
    have hmem := dictFind_mem rc.2 nm w hw
    have hwval : w = "_missing_" := hQ (nm, w) hmem rfl
    rw [hcoords]
    rw [hwval] at hmem
    exact hmem
  · intro hs2 hpos rows hok
    rcases decode_ok_elim cube rows hok with ⟨cats, hres, hall, _⟩
    have hcat := hcatsfind cats hres
    have hdsz : d < cube.sizes.length := by rw [← hlen]; exact hdlt
    have hsd : cube.sizes.getD d 0 = cube.sizes[d] := by
      rw [List.getD_eq_getElem?_getD, List.getElem?_eq_getElem hdsz]
      rfl
    have hstar : (cube.sizes.drop (d + 1)).prod < cube.sizes.prod := by
      have hsplit := List.prod_take_mul_prod_drop cube.sizes d
      have hdrop : (cube.sizes.drop d).prod =
          cube.sizes[d] * (cube.sizes.drop (d + 1)).prod :=
        drop_prod_succ cube.sizes d hdsz
      have htake : 0 < (cube.sizes.take d).prod :=
        List.prod_pos (fun s hs => hpos s (List.mem_of_mem_take hs))
      have hdp : 0 < (cube.sizes.drop (d + 1)).prod :=
        List.prod_pos (fun s hs => hpos s (List.mem_of_mem_drop hs))
      have hsd2 : 2 ≤ cube.sizes[d] := by rw [← hsd]; exact hs2
      calc (cube.sizes.drop (d + 1)).prod
          < 2 * (cube.sizes.drop (d + 1)).prod := by omega
        _ ≤ cube.sizes[d] * (cube.sizes.drop (d + 1)).prod :=
            Nat.mul_le_mul_right _ hsd2
        _ ≤ (cube.sizes.take d).prod *
              (cube.sizes[d] * (cube.sizes.drop (d + 1)).prod) :=
            Nat.le_mul_of_pos_left _ htake
        _ = cube.sizes.prod := by rw [← hdrop, hsplit]
    have hplt : (cube.sizes.drop (d + 1)).prod < n_obs cube.sizes := by
      rw [n_obs_eq_prod]
      exact hstar
    rcases hall ((cube.sizes.drop (d + 1)).prod) hplt with ⟨o, ho⟩
    rcases rowAt_ok_parts _ _ _ _ _ _ ho with ⟨rc, v, hc, _, _⟩
    rw [coordLoop_range cube.ids cats cube.sizes
      ((cube.sizes.drop (d + 1)).prod) [] hstar] at hc
    have hbound := coordLoop_ok_bounds cube.ids cats cube.sizes
      ((cube.sizes.drop (d + 1)).prod) cube.sizes.length 0 [] rc
      (by omega) hc d (Nat.zero_le d) hdsz nm ["_missing_"] hid hcat
    have hco : coordOf cube.sizes d ((cube.sizes.drop (d + 1)).prod) = 1 := by
      unfold coordOf
      have hdp : 0 < (cube.sizes.drop (d + 1)).prod :=
        List.prod_pos (fun s hs => hpos s (List.mem_of_mem_drop hs))
      rw [Nat.div_self hdp]
      have hsd1 : cube.sizes.getD d 1 = cube.sizes[d] := by
        rw [List.getD_eq_getElem?_getD, List.getElem?_eq_getElem hdsz]
        rfl
      rw [hsd1]
      exact Nat.mod_eq_of_lt (by
        have : 2 ≤ cube.sizes[d] := by rw [← hsd]; exact hs2
        omega)
    rw [hco] at hbound
    simp at hbound

/-- C7 (witness): the amended statement at a concrete cube whose first
dimension has no categories and declared size 1; the cube decodes
successfully and every row maps that dimension to the placeholder. -/
theorem C7_placeholder_amended_witness :
    (Cube.mk ["a", "b"] [1, 2] [("a", []), ("b", [("x", 0), ("y", 1)])]
        (.dense [some 1, some 2])).ids.length =
      (Cube.mk ["a", "b"] [1, 2] [("a", []), ("b", [("x", 0), ("y", 1)])]
        (.dense [some 1, some 2])).sizes.length ∧
    (Cube.mk ["a", "b"] [1, 2] [("a", []), ("b", [("x", 0), ("y", 1)])]
        (.dense [some 1, some 2])).ids[(0 : Nat)]? = some "a" ∧
    dictFind (Cube.mk ["a", "b"] [1, 2]
        [("a", []), ("b", [("x", 0), ("y", 1)])]
        (.dense [some 1, some 2])).dimension "a" = some [] ∧
    (resolveCategories [] = .ok ["_missing_"] ∧
      (∀ rows, jsonstat_to_dataframe
          (Cube.mk ["a", "b"] [1, 2] [("a", []), ("b", [("x", 0), ("y", 1)])]
            (.dense [some 1, some 2])) = .ok rows →
        ∀ obs ∈ rows, ("a", "_missing_") ∈ obs.coords) ∧
      (2 ≤ (Cube.mk ["a", "b"] [1, 2]
          [("a", []), ("b", [("x", 0), ("y", 1)])]
          (.dense [some 1, some 2])).sizes.getD 0 0 →
        (∀ s ∈ (Cube.mk ["a", "b"] [1, 2]
          [("a", []), ("b", [("x", 0), ("y", 1)])]
          (.dense [some 1, some 2])).sizes, 0 < s) →
        ∀ rows, jsonstat_to_dataframe
          (Cube.mk ["a", "b"] [1, 2] [("a", []), ("b", [("x", 0), ("y", 1)])]
            (.dense [some 1, some 2])) ≠ .ok rows)) :=
  ⟨rfl, by decide, by decide,
    C7_placeholder_amended
      (Cube.mk ["a", "b"] [1, 2] [("a", []), ("b", [("x", 0), ("y", 1)])]
        (.dense [some 1, some 2])) 0 "a" rfl (by decide) (by decide)⟩

/-! ### Claim C8: out-of-range coordinates fail loudly -/

/-- C8: the decoder never reads a category list out of range and never
silently emits a wrong observation: (1) whenever the decode succeeds, every
stride-arithmetic coordinate of every flat position lies inside the bounds
of the corresponding resolved category list; and (2) at the first flat
position whose stride arithmetic produces an out-of-range coordinate (all
earlier positions being decodable and all earlier dimensions of that
position in range), the decode fails with exactly the `malformedCoordinate`
error — the embedding of the `IndexError` that Python's checked list
indexing raises at `code_list[coord_index]`. -/
theorem C8_out_of_range_fails (cube : Cube)
    (cats : List (String × List String))
    (hres : resolveAll cube.ids cube.dimension = .ok cats) :
    (∀ rows, jsonstat_to_dataframe cube = .ok rows →
      ∀ p, p < n_obs cube.sizes → ∀ j, j < cube.sizes.length →
      ∀ nm list, cube.ids[j]? = some nm → dictFind cats nm = some list →
        coordOf cube.sizes j p < list.length) ∧
    (∀ p j0 nm list, p < n_obs cube.sizes →
      (∀ q, q < p → ∃ o, rowAt cube.ids cube.sizes cats cube.value q = .ok o) →
      j0 < cube.sizes.length →
      cube.ids[j0]? = some nm → dictFind cats nm = some list →
      list.length ≤ coordOf cube.sizes j0 p →
      (∀ j, j < j0 → ∃ nm2 list2, cube.ids[j]? = some nm2 ∧
        dictFind cats nm2 = some list2 ∧ coordOf cube.sizes j p < list2.length) →
      jsonstat_to_dataframe cube = .error .malformedCoordinate) := by
  constructor
  · intro rows hok p hp j hj nm list hid hcat
    rcases decode_ok_elim cube rows hok with ⟨cats', hres', hall, _⟩
    have hcats : cats' = cats := by
      rw [hres] at hres'
      injection hres' with h
      exact h.symm
    rw [hcats] at hall
    rcases hall p hp with ⟨o, ho⟩
    rcases rowAt_ok_parts _ _ _ _ _ _ ho with ⟨rc, v, hc, _, _⟩
    rw [coordLoop_range cube.ids cats cube.sizes p []
      (by rw [← n_obs_eq_prod]; exact hp)] at hc
    exact coordLoop_ok_bounds cube.ids cats cube.sizes p cube.sizes.length 0
      [] rc (by omega) hc j (Nat.zero_le j) hj nm list hid hcat
  · intro p j0 nm list hp hprev hj0 hid hcat hge hpre
    have herr : coordLoop cube.ids cats (stridesLoop cube.sizes)
        (List.range cube.sizes.length) p [] = .error .malformedCoordinate := by
      rw [coordLoop_range cube.ids cats cube.sizes p []
        (by rw [← n_obs_eq_prod]; exact hp)]
      exact coordLoop_error_first cube.ids cats cube.sizes p j0 nm list hj0
        hid hcat hge hpre cube.sizes.length 0 [] (by omega) (Nat.zero_le j0)
    exact decode_error_intro cube cats p .malformedCoordinate hres hp hprev
      (rowAt_error_of_coordLoop _ _ _ _ _ _ herr)

/-- C8 (witness): both conjuncts at a concrete 1-dimensional cube of size 2
whose single category list has one entry, so flat position 1 is the first
position with an out-of-range coordinate and the decode fails with
`malformedCoordinate`. -/
theorem C8_out_of_range_fails_witness :
    resolveAll (Cube.mk ["a"] [2] [("a", [("x", 0)])]
        (.dense [some 1, some 2])).ids
      (Cube.mk ["a"] [2] [("a", [("x", 0)])]
        (.dense [some 1, some 2])).dimension = .ok [("a", ["x"])] ∧
    jsonstat_to_dataframe (Cube.mk ["a"] [2] [("a", [("x", 0)])]
      (.dense [some 1, some 2])) = .error .malformedCoordinate := by
  constructor
  · decide
  · exact (C8_out_of_range_fails
      (Cube.mk ["a"] [2] [("a", [("x", 0)])] (.dense [some 1, some 2]))
      [("a", ["x"])] (by decide)).2 1 0 "a" ["x"] (by decide)
      (by
        intro q hq
        have hq0 : q = 0 := by omega
        subst hq0
        exact ⟨some ⟨[("a", "x")], 1⟩, by decide⟩)
      (by decide) (by decide) (by decide) (by decide)
      (by intro j hj; omega)

/-! ### Claim C10: irrelevant sparse keys -/

theorem dictFind_filter {κ ν : Type} [BEq κ] [LawfulBEq κ]
    (es : List (κ × ν)) (Q : κ × ν → Bool) (k : κ)
    (hQ : ∀ e ∈ es, e.1 = k → Q e = true) :
    dictFind (es.filter Q) k = dictFind es k := by
  induction es with
  | nil => rfl
  | cons e t ih =>
    have iht : dictFind (t.filter Q) k = dictFind t k :=
      ih (fun e2 he2 hk => hQ e2 (List.mem_cons_of_mem e he2) hk)
    by_cases he : e.1 == k
    · have hQe : Q e = true := hQ e (List.mem_cons_self e t) (eq_of_beq he)
      rw [List.filter_cons_of_pos hQe, dictFind_cons, dictFind_cons, if_pos he,
        if_pos he]
    · cases hQe : Q e with
      | true =>
        rw [List.filter_cons_of_pos hQe, dictFind_cons, dictFind_cons,
          if_neg (by simpa using he), if_neg (by simpa using he)]
        exact iht
      | false =>
        rw [List.filter_cons_of_neg (by simp [hQe]), dictFind_cons,
          if_neg (by simpa using he)]
        exact iht

/-- C10: for every cube with a sparse value store, removing every entry whose
key is not the decimal string of an in-range flat position leaves the decode
output unchanged — only keys `str(0)` to `str(total - 1)` are ever looked up,
so extra, out-of-range, or non-numeric keys never affect the emitted
observations. -/
theorem C10_sparse_key_filter (cube : Cube) (es : List (String × Option Int))
    (hv : cube.value = .sparse es) :
    jsonstat_to_dataframe
        ⟨cube.ids, cube.sizes, cube.dimension,
          .sparse (es.filter (fun e =>
            (List.range (n_obs cube.sizes)).any (fun p => Nat.repr p == e.1)))⟩
      = jsonstat_to_dataframe cube := by
  obtain ⟨ids, sizes, dimension, value⟩ := cube
  simp only [] at hv ⊢
  subst hv
  cases hres : resolveAll ids dimension with
  | error e =>
    unfold jsonstat_to_dataframe
    simp [hres, Except.bind, bind]
  | ok cats =>
    rw [decode_unfold
        ⟨ids, sizes, dimension, .sparse (es.filter (fun e =>
          (List.range (n_obs sizes)).any (fun p => Nat.repr p == e.1)))⟩
        cats hres,
      decode_unfold ⟨ids, sizes, dimension, .sparse es⟩ cats hres]
    apply obsFold_congr
    intro p hp
    simp only [] at hp
    have hgva : get_value_at
        (.sparse (es.filter (fun e =>
          (List.range (n_obs sizes)).any (fun q => Nat.repr q == e.1)))) p =
        get_value_at (.sparse es) p := by
      unfold get_value_at
      simp only []
      rw [dictFind_filter es _ (Nat.repr p)]
      intro e _ hk
      rw [List.any_eq_true]
      exact ⟨p, hp, by rw [hk]; exact beq_self_eq_true _⟩
    unfold rowAt
    rw [hgva]

/-- C10 (witness): the filtering invariance at a concrete sparse cube whose
store holds an in-range key, a non-numeric key, and an out-of-range key. -/
theorem C10_sparse_key_filter_witness :
    (geoTimeCube (.sparse
        [("0", some 1), ("junk", some 99), ("7", some 5), ("3", some 4)])).value
      = .sparse [("0", some 1), ("junk", some 99), ("7", some 5), ("3", some 4)] ∧
    jsonstat_to_dataframe
        ⟨(geoTimeCube (.sparse
            [("0", some 1), ("junk", some 99), ("7", some 5), ("3", some 4)])).ids,
          (geoTimeCube (.sparse
            [("0", some 1), ("junk", some 99), ("7", some 5), ("3", some 4)])).sizes,
          (geoTimeCube (.sparse
            [("0", some 1), ("junk", some 99), ("7", some 5), ("3", some 4)])).dimension,
          .sparse ([("0", some 1), ("junk", some 99), ("7", some 5),
              ("3", some 4)].filter (fun e =>
            (List.range (n_obs (geoTimeCube (.sparse
              [("0", some 1), ("junk", some 99), ("7", some 5),
                ("3", some 4)])).sizes)).any (fun p => Nat.repr p == e.1)))⟩
      = jsonstat_to_dataframe (geoTimeCube (.sparse
          [("0", some 1), ("junk", some 99), ("7", some 5), ("3", some 4)])) :=
  ⟨rfl, C10_sparse_key_filter
    (geoTimeCube (.sparse
      [("0", some 1), ("junk", some 99), ("7", some 5), ("3", some 4)]))
    [("0", some 1), ("junk", some 99), ("7", some 5), ("3", some 4)] rfl⟩
